import Mathlib

/-!
Shallow embedding of the DraftCraft session execution engine
(TypeScript sources: discord-bot.ts, cli.ts, codex-runner.ts, executor.ts,
llm.ts and the pty-based runner), together with proofs of the spec claims.

A TypeScript string is modelled as `List Char`; `slice`, `length`,
`startsWith` and friends become the corresponding list operations.
External collaborators (the Chat Client, `stripVTControlCharacters`,
the probe subprocess) are modelled as function parameters, since their
code is not part of this repository.
-/

namespace DraftCraft

/-- Roles of a chat message, from `ChatRole` in llm.ts / ollama.ts. -/
inductive ChatRole
  | system
  | user
  | assistant
deriving DecidableEq

/-- `ChatMessage` from llm.ts: a role together with text content. -/
structure ChatMessage where
  role : ChatRole
  content : List Char
deriving DecidableEq

/-! ## chunkText (discord-bot.ts lines 65-76) -/

/-- The `while (remaining.length > maxLength)` loop body of `chunkText`:
repeatedly slice off the first `maxLength` characters, then push the
remainder if non-empty.  For `maxLength = 0` the TypeScript loop never
terminates on a non-empty string; that case is unreachable because
`chunkText` only calls the loop with `input.length > maxLength`, and the
claims only consider a positive maximum length. -/
def chunkLoop (maxLength : Nat) (remaining : List Char) : List (List Char) :=
  if maxLength < remaining.length then
    if 0 < maxLength then
      remaining.take maxLength :: chunkLoop maxLength (remaining.drop maxLength)
    else []
  else if 0 < remaining.length then [remaining] else []
termination_by remaining.length
decreasing_by
  simp only [List.length_drop]
  omega

/-- `chunkText(input, maxLength)` from discord-bot.ts: split a string into
consecutive slices of at most `maxLength` characters. -/
def chunkText (input : List Char) (maxLength : Nat) : List (List Char) :=
  if input.length ≤ maxLength then [input] else chunkLoop maxLength input

theorem chunkLoop_flatten (maxLength : Nat) (hm : 0 < maxLength) (remaining : List Char) :
    (chunkLoop maxLength remaining).flatten = remaining := by
  induction remaining using chunkLoop.induct maxLength with
  | case1 x h hmp ih =>
    rw [chunkLoop, if_pos h, if_pos hmp]
    rw [List.flatten_cons, ih, List.take_append_drop]
  | case2 x h hmp => exact absurd hm hmp
  | case3 x h h0 =>
    rw [chunkLoop, if_neg h, if_pos h0]
    simp
  | case4 x h h0 =>
    rw [chunkLoop, if_neg h, if_neg h0]
    have : x.length = 0 := by omega
    simp [List.length_eq_zero.mp this]

theorem chunkLoop_length_le (maxLength : Nat) (hm : 0 < maxLength) (remaining : List Char) :
    ∀ c ∈ chunkLoop maxLength remaining, c.length ≤ maxLength := by
  induction remaining using chunkLoop.induct maxLength with
  | case1 x h hmp ih =>
    rw [chunkLoop, if_pos h, if_pos hmp]
    intro c hc
    rcases List.mem_cons.mp hc with rfl | hc
    · simp [List.length_take]
    · exact ih c hc
  | case2 x h hmp => exact absurd hm hmp
  | case3 x h h0 =>
    rw [chunkLoop, if_neg h, if_pos h0]
    intro c hc
    rw [List.mem_singleton] at hc
    subst hc
    omega
  | case4 x h h0 =>
    rw [chunkLoop, if_neg h, if_neg h0]
    intro c hc
    exact absurd hc (List.not_mem_nil c)

theorem chunkLoop_ne_nil (maxLength : Nat) (hm : 0 < maxLength) (remaining : List Char)
    (h0 : 0 < remaining.length) : chunkLoop maxLength remaining ≠ [] := by
  rw [chunkLoop]
  by_cases h : maxLength < remaining.length
  · simp [h, hm]
  · simp [h, h0]

theorem chunkLoop_dropLast (maxLength : Nat) (hm : 0 < maxLength) (remaining : List Char) :
    ∀ c ∈ (chunkLoop maxLength remaining).dropLast, c.length = maxLength := by
  induction remaining using chunkLoop.induct maxLength with
  | case1 x h hmp ih =>
    rw [chunkLoop, if_pos h, if_pos hmp]
    have hne : chunkLoop maxLength (x.drop maxLength) ≠ [] :=
      chunkLoop_ne_nil maxLength hm _ (by simp; omega)
    rw [List.dropLast_cons_of_ne_nil hne]
    intro c hc
    rcases List.mem_cons.mp hc with rfl | hc
    · rw [List.length_take]
      omega
    · exact ih c hc
  | case2 x h hmp => exact absurd hm hmp
  | case3 x h h0 =>
    rw [chunkLoop, if_neg h, if_pos h0]
    intro c hc
    simp at hc
  | case4 x h h0 =>
    rw [chunkLoop, if_neg h, if_neg h0]
    intro c hc
    simp at hc

/-- C10: for every input string `s` and positive maximum length `n`,
`chunkText s n` concatenates back to `s`, every chunk has length at most
`n`, and every chunk except possibly the last has length exactly `n`. -/
theorem chunkText_spec (s : List Char) (n : Nat) (hn : 0 < n) :
    (chunkText s n).flatten = s ∧
    (∀ c ∈ chunkText s n, c.length ≤ n) ∧
    (∀ c ∈ (chunkText s n).dropLast, c.length = n) := by
  unfold chunkText
  by_cases h : s.length ≤ n
  · rw [if_pos h]
    refine ⟨by simp, ?_, by simp⟩
    intro c hc
    rw [List.mem_singleton] at hc
    subst hc
    exact h
  · rw [if_neg h]
    exact ⟨chunkLoop_flatten n hn s, chunkLoop_length_le n hn s, chunkLoop_dropLast n hn s⟩

/-- Witness for C10 at the concrete input `"abcde"`, `n = 2`. -/
theorem chunkText_spec_witness :
    0 < 2 ∧
    ((chunkText "abcde".toList 2).flatten = "abcde".toList ∧
     (∀ c ∈ chunkText "abcde".toList 2, c.length ≤ 2) ∧
     (∀ c ∈ (chunkText "abcde".toList 2).dropLast, c.length = 2)) :=
  ⟨by decide, chunkText_spec "abcde".toList 2 (by decide)⟩

/-! ## Session history (discord-bot.ts lines 32-124, cli.ts lines 102-110) -/

/-- The `SYSTEM_PROMPT` constant of discord-bot.ts (the assistant system
prompt; its exact text plays no role in the claims). -/
def SYSTEM_PROMPT : List Char :=
  ("あなたはユーザーと一緒に、CodexCLIに渡す実装指示文を作るアシスタントです。\n" ++
   "ユーザーの意図を確認し、曖昧な部分は質問し、具体的な手順と完了条件が含まれる指示文へ改善してください。\n" ++
   "日本語で簡潔に回答してください。").toList

/-- The leading system message every session history starts with. -/
def SYSTEM_PROMPT_MSG : ChatMessage :=
  { role := ChatRole.system, content := SYSTEM_PROMPT }

/-- JavaScript `array.slice(-k)`.  For `k > 0` this keeps the last `k`
elements; for `k = 0` the argument `-0` is the number `+0`, so
`slice(-0) = slice(0)` returns the whole array. -/
def sliceNeg (l : List ChatMessage) (k : Nat) : List ChatMessage :=
  if k = 0 then l else l.drop (l.length - k)

/-- `trimHistory(history, maxHistoryMessages)` from discord-bot.ts
lines 93-101 (identical in cli.ts lines 102-110): if the history is longer
than `max + 1`, keep `history[0]` (defaulting to the system message) plus
`history.slice(1).slice(-max)`. -/
def trimHistory (history : List ChatMessage) (maxHistoryMessages : Nat) : List ChatMessage :=
  if history.length ≤ maxHistoryMessages + 1 then history
  else history.headD SYSTEM_PROMPT_MSG :: sliceNeg history.tail maxHistoryMessages

/-- The spec's `appendAndTrim(session, message)`: push the message, then
trim — exactly what callOllamaForChat does after each append
(discord-bot.ts lines 273-278). -/
def appendAndTrim (maxH : Nat) (history : List ChatMessage) (m : ChatMessage) :
    List ChatMessage :=
  trimHistory (history ++ [m]) maxH

theorem sliceNeg_pos (l : List ChatMessage) (k : Nat) (hk : k ≠ 0) :
    sliceNeg l k = l.drop (l.length - k) := by
  simp [sliceNeg, hk]

/-- One `appendAndTrim` step from a state `system :: r` with `r` not longer
than `maxH ≥ 1` keeps the window shape: the new tail is the last `maxH`
elements of `r ++ [m]`. -/
theorem appendAndTrim_step (maxH : Nat) (hm : 1 ≤ maxH) (r : List ChatMessage)
    (m : ChatMessage) (hr : r.length ≤ maxH) :
    appendAndTrim maxH (SYSTEM_PROMPT_MSG :: r) m =
      SYSTEM_PROMPT_MSG :: (r ++ [m]).drop ((r ++ [m]).length - maxH) := by
  unfold appendAndTrim trimHistory
  by_cases h : r.length + 1 ≤ maxH
  · rw [if_pos (by simp; omega)]
    have h0 : (r ++ [m]).length - maxH = 0 := by simp; omega
    rw [h0, List.drop_zero]
    simp
  · rw [if_neg (by simp; omega)]
    simp only [List.cons_append, List.headD_cons, List.tail_cons]
    rw [sliceNeg_pos _ _ (by omega)]

/-- Folding `appendAndTrim` over a message list from a window state keeps
exactly the last `maxH` appended messages after the system message. -/
theorem foldl_appendAndTrim (maxH : Nat) (hm : 1 ≤ maxH) (msgs : List ChatMessage) :
    ∀ r : List ChatMessage, r.length ≤ maxH →
      msgs.foldl (appendAndTrim maxH) (SYSTEM_PROMPT_MSG :: r) =
        SYSTEM_PROMPT_MSG :: (r ++ msgs).drop ((r ++ msgs).length - maxH) := by
  induction msgs with
  | nil =>
    intro r hr
    simp only [List.foldl_nil, List.append_nil]
    have : r.length - maxH = 0 := by omega
    rw [this, List.drop_zero]
  | cons m rest ih =>
    intro r hr
    rw [List.foldl_cons, appendAndTrim_step maxH hm r m hr]
    have hr'len : ((r ++ [m]).drop ((r ++ [m]).length - maxH)).length ≤ maxH := by
      rw [List.length_drop]
      omega
    rw [ih _ hr'len]
    have hsplit : (r ++ [m]).drop ((r ++ [m]).length - maxH) ++ rest
        = ((r ++ [m]) ++ rest).drop ((r ++ [m]).length - maxH) :=
      (List.drop_append_of_le_length (by omega)).symm
    rw [hsplit, List.drop_drop]
    have harr : (r ++ [m]) ++ rest = r ++ (m :: rest) := by
      simp
    rw [harr]
    congr 2
    simp only [List.length_drop, List.length_append, List.length_cons, List.length_nil]
    omega

/-- C4 (amended to positive `max`): for every `max ≥ 1`, after appending
`N > max` non-system messages with trimming applied after each append, the
history has length exactly `max + 1` and consists of the leading system
message followed by the most recent `max` messages in their original
order.  The restriction `max ≥ 1` is forced: for `max = 0` the JavaScript
call `rest.slice(-0)` keeps the whole tail, so no trimming happens. -/
theorem appendAndTrim_cap (maxH : Nat) (hm : 1 ≤ maxH) (msgs : List ChatMessage)
    (hN : maxH < msgs.length)
    (_hroles : ∀ m ∈ msgs, m.role ≠ ChatRole.system) :
    (msgs.foldl (appendAndTrim maxH) [SYSTEM_PROMPT_MSG]).length = maxH + 1 ∧
    msgs.foldl (appendAndTrim maxH) [SYSTEM_PROMPT_MSG]
      = SYSTEM_PROMPT_MSG :: msgs.drop (msgs.length - maxH) := by
  have h := foldl_appendAndTrim maxH hm msgs [] (by simp)
  simp only [List.nil_append] at h
  refine ⟨?_, h⟩
  rw [h]
  simp only [List.length_cons, List.length_drop]
  omega

/-- C4 counterexample: with `max = 0`, appending a single non-system
message (so `N = 1 > max`) leaves a history of length 2, not `max + 1 = 1`,
because `slice(-0)` keeps the entire tail. -/
theorem appendAndTrim_cap_cex :
    ¬ ((([{ role := ChatRole.user, content := "u".toList }] : List ChatMessage).foldl
          (appendAndTrim 0) [SYSTEM_PROMPT_MSG]).length = 0 + 1) := by
  decide

/-- Witness for C4 at `max = 1` and two appended user messages. -/
theorem appendAndTrim_cap_witness :
    (1 ≤ 1 ∧
     1 < ([⟨ChatRole.user, "a".toList⟩, ⟨ChatRole.user, "b".toList⟩] : List ChatMessage).length ∧
     (∀ m ∈ ([⟨ChatRole.user, "a".toList⟩, ⟨ChatRole.user, "b".toList⟩] : List ChatMessage),
        m.role ≠ ChatRole.system)) ∧
    ((([⟨ChatRole.user, "a".toList⟩, ⟨ChatRole.user, "b".toList⟩] : List ChatMessage).foldl
        (appendAndTrim 1) [SYSTEM_PROMPT_MSG]).length = 1 + 1 ∧
     ([⟨ChatRole.user, "a".toList⟩, ⟨ChatRole.user, "b".toList⟩] : List ChatMessage).foldl
        (appendAndTrim 1) [SYSTEM_PROMPT_MSG]
       = SYSTEM_PROMPT_MSG ::
           ([⟨ChatRole.user, "a".toList⟩, ⟨ChatRole.user, "b".toList⟩] : List ChatMessage).drop
             (([⟨ChatRole.user, "a".toList⟩, ⟨ChatRole.user, "b".toList⟩] :
                 List ChatMessage).length - 1)) :=
  ⟨⟨by decide, by decide, by decide⟩,
   appendAndTrim_cap 1 (by decide) _ (by decide) (by decide)⟩

/-! ## Session operations and the leading-system-message invariant (C5) -/

/-- The session-history operations of the bot: `callOllamaForChat` appends
a user message then an assistant message, trimming after each append
(discord-bot.ts lines 273-278); `/reset` replaces the history with a fresh
system message (lines 429-433); `ensureSession`/`createSessionChannel`
create the history as `[systemMessage]`. -/
inductive SessionOp
  | appendUser (content : List Char)
  | appendAssistant (content : List Char)
  | trim (maxH : Nat)
  | reset

/-- Effect of one session operation on the history. -/
def applySessionOp (history : List ChatMessage) : SessionOp → List ChatMessage
  | SessionOp.appendUser c => history ++ [{ role := ChatRole.user, content := c }]
  | SessionOp.appendAssistant c => history ++ [{ role := ChatRole.assistant, content := c }]
  | SessionOp.trim maxH => trimHistory history maxH
  | SessionOp.reset => [SYSTEM_PROMPT_MSG]

/-- The history a session is created with (ensureSession,
createSessionChannel: `[{ role: "system", content: SYSTEM_PROMPT }]`). -/
def initialHistory : List ChatMessage := [SYSTEM_PROMPT_MSG]

/-- The first history entry exists and is a system message. -/
def headIsSystem : List ChatMessage → Prop
  | [] => False
  | m :: _ => m.role = ChatRole.system

theorem headIsSystem_cons (m : ChatMessage) (rest : List ChatMessage) :
    headIsSystem (m :: rest) ↔ m.role = ChatRole.system := Iff.rfl

theorem headIsSystem_applySessionOp (history : List ChatMessage)
    (h : headIsSystem history) (op : SessionOp) :
    headIsSystem (applySessionOp history op) := by
  cases history with
  | nil => exact absurd h (by simp [headIsSystem])
  | cons m rest =>
    rw [headIsSystem_cons] at h
    cases op with
    | appendUser c =>
      simpa [applySessionOp, headIsSystem_cons] using h
    | appendAssistant c =>
      simpa [applySessionOp, headIsSystem_cons] using h
    | trim maxH =>
      simp only [applySessionOp]
      unfold trimHistory
      by_cases hc : (m :: rest).length ≤ maxH + 1
      · rw [if_pos hc, headIsSystem_cons]
        exact h
      · rw [if_neg hc]
        simpa [headIsSystem_cons] using h
    | reset =>
      simp [applySessionOp, headIsSystem_cons, SYSTEM_PROMPT_MSG]

/-- C5: after any sequence of session operations starting from session
creation, the first history element always exists and has role system. -/
theorem session_head_system (ops : List SessionOp) :
    headIsSystem (ops.foldl applySessionOp initialHistory) := by
  have h : ∀ history, headIsSystem history →
      headIsSystem (ops.foldl applySessionOp history) := by
    induction ops with
    | nil => intro history h; exact h
    | cons op rest ih =>
      intro history h
      exact ih _ (headIsSystem_applySessionOp history h op)
  exact h initialHistory (by rw [initialHistory, headIsSystem_cons]; rfl)

/-! ## Finalization (discord-bot.ts lines 126-131, 292-322) — C6 -/

/-- JavaScript `Array.prototype.join(sep)` on a list of strings. -/
def joinWith (sep : List Char) : List (List Char) → List Char
  | [] => []
  | [x] => x
  | x :: y :: ys => x ++ sep ++ joinWith sep (y :: ys)

/-- `formatHistoryForFinalizer(history)` from discord-bot.ts lines 126-131:
drop system messages, prefix each remaining message with `User: ` or
`Assistant: `, and join with blank lines. -/
def formatHistoryForFinalizer (history : List ChatMessage) : List Char :=
  joinWith "\n\n".toList
    ((history.filter fun msg => msg.role ≠ ChatRole.system).map fun msg =>
      (if msg.role = ChatRole.user then "User: ".toList else "Assistant: ".toList)
        ++ msg.content)

/-- The `FINALIZER_SYSTEM_PROMPT` constant of discord-bot.ts. -/
def FINALIZER_SYSTEM_PROMPT : List Char :=
  ("あなたは会話ログから、CodexCLIへ渡す最終指示文を1つに統合するエディタです。\n" ++
   "出力は最終指示文のみを返してください。\n" ++
   "日本語で、目的・要件・制約・完了条件が明確になるように書いてください。").toList

/-- The empty-history error message thrown by `finalizeAndRun`. -/
def EMPTY_HISTORY_ERROR : List Char := "会話履歴が空のため最終確定できません。".toList

/-- The finalize path of `finalizeAndRun` (discord-bot.ts lines 309-322)
up to and including the prompt-file write, with the Chat Client as a
function parameter.  `Except.error` models the thrown empty-history error
(the throw happens before any file write); `Except.ok` carries the
contents of the prompt files written, in order — the code performs exactly
one `writeFileSync(promptFilePath, prompt + "\n")`. -/
def finalizeAndRun (chat : List ChatMessage → List Char) (history : List ChatMessage) :
    Except (List Char) (List (List Char)) :=
  if formatHistoryForFinalizer history = [] then Except.error EMPTY_HISTORY_ERROR
  else
    Except.ok
      [chat [{ role := ChatRole.system, content := FINALIZER_SYSTEM_PROMPT },
             { role := ChatRole.user, content := formatHistoryForFinalizer history }]
         ++ "\n".toList]

theorem joinWith_cons_ne_nil (sep x : List Char) (xs : List (List Char)) (hx : x ≠ []) :
    joinWith sep (x :: xs) ≠ [] := by
  cases xs with
  | nil => simpa [joinWith] using hx
  | cons y ys => simp [joinWith, hx]

/-- The finalizer's history text is empty exactly when the history has no
user or assistant messages. -/
theorem formatHistory_eq_nil_iff (history : List ChatMessage) :
    formatHistoryForFinalizer history = [] ↔
      history.filter (fun msg => msg.role ≠ ChatRole.system) = [] := by
  unfold formatHistoryForFinalizer
  cases hf : history.filter (fun msg => msg.role ≠ ChatRole.system) with
  | nil => simp [joinWith]
  | cons x xs =>
    simp only [List.map_cons]
    constructor
    · intro h
      exfalso
      refine joinWith_cons_ne_nil _ _ _ ?_ h
      by_cases hx : x.role = ChatRole.user
      · rw [if_pos hx]
        intro hcontra
        rw [List.append_eq_nil] at hcontra
        exact absurd hcontra.1 (by decide)
      · rw [if_neg hx]
        intro hcontra
        rw [List.append_eq_nil] at hcontra
        exact absurd hcontra.1 (by decide)
    · intro h
      exact absurd h (by simp)

/-- C6 (amended): finalize on a history with no user/assistant messages
fails with the empty-history error before writing any prompt file; on a
history with a non-empty filtered history it writes exactly one prompt
file, whose content is the Chat Client's returned text followed by a
single newline appended by the code. -/
theorem finalizeAndRun_spec (chat : List ChatMessage → List Char)
    (history : List ChatMessage) :
    finalizeAndRun chat history =
      if history.filter (fun msg => msg.role ≠ ChatRole.system) = [] then
        Except.error EMPTY_HISTORY_ERROR
      else
        Except.ok
          [chat [{ role := ChatRole.system, content := FINALIZER_SYSTEM_PROMPT },
                 { role := ChatRole.user, content := formatHistoryForFinalizer history }]
             ++ "\n".toList] := by
  unfold finalizeAndRun
  by_cases h : history.filter (fun msg => msg.role ≠ ChatRole.system) = []
  · rw [if_pos ((formatHistory_eq_nil_iff history).mpr h), if_pos h]
  · rw [if_neg (fun hc => h ((formatHistory_eq_nil_iff history).mp hc)), if_neg h]

/-- C6 counterexample: with a non-empty filtered history and a Chat Client
returning `"X"`, the single prompt file's content is `"X\n"`, not `"X"`:
the code writes `prompt + "\n"`, so the file content does not equal the
Chat Client's returned text. -/
theorem finalizeAndRun_newline_cex :
    finalizeAndRun (fun _ => "X".toList)
        [SYSTEM_PROMPT_MSG, { role := ChatRole.user, content := "hi".toList }]
      ≠ Except.ok ["X".toList] := by
  intro hc
  have heval : finalizeAndRun (fun _ => "X".toList)
      [SYSTEM_PROMPT_MSG, { role := ChatRole.user, content := "hi".toList }]
      = Except.ok ["X\n".toList] := by rfl
  rw [heval] at hc
  injection hc with h
  exact absurd h (by decide)

/-! ## Busy guard for chat turns (discord-bot.ts lines 262-286) — C7 -/

/-- Observable outcome of one chat-turn request. -/
structure ChatTurnResult where
  busyRejected : Bool
  history : List ChatMessage
  chatCalls : Nat
deriving DecidableEq

/-- `callOllamaForChat` (discord-bot.ts lines 262-286): if the channel is
already in `processingChannels` the request is rejected with the busy
message and nothing else happens; otherwise the guard is taken, the user
message is appended and trimmed, one Chat Client call is made, and the
assistant reply is appended and trimmed. -/
def callOllamaForChat (maxH : Nat) (chat : List ChatMessage → List Char)
    (processing : Bool) (history : List ChatMessage) (userContent : List Char) :
    ChatTurnResult :=
  if processing then
    { busyRejected := true, history := history, chatCalls := 0 }
  else
    let h1 := trimHistory (history ++ [{ role := ChatRole.user, content := userContent }]) maxH
    let response := chat h1
    let h2 := trimHistory (h1 ++ [{ role := ChatRole.assistant, content := response }]) maxH
    { busyRejected := false, history := h2, chatCalls := 1 }

/-- C7: a chat-turn request arriving while the busy guard is set for the
session is rejected with the busy message, appends no message to the
history, and issues no Chat Client call. -/
theorem busy_guard_rejects (maxH : Nat) (chat : List ChatMessage → List Char)
    (history : List ChatMessage) (userContent : List Char) :
    callOllamaForChat maxH chat true history userContent =
      { busyRejected := true, history := history, chatCalls := 0 } := rfl

/-! ## Executor router (executor.ts lines 33-129) — C3 -/

/-- `ExecutorKey` from executor.ts. -/
inductive ExecutorKey
  | codex
  | claude
deriving DecidableEq

/-- `ExecutorMode` from executor.ts: a fixed executor or `auto`. -/
inductive ExecutorMode
  | codex
  | claude
  | auto
deriving DecidableEq

/-- The identifier string of an executor. -/
def executorName : ExecutorKey → List Char
  | ExecutorKey.codex => "codex".toList
  | ExecutorKey.claude => "claude".toList

/-- JavaScript truthiness of a nullable string: `null` and the empty
string are falsy. -/
def strTruthy : Option (List Char) → Bool
  | some s => decide (s ≠ [])
  | none => false

/-- `availableExecutors` from executor.ts lines 33-45: push `codex` if its
template is truthy, then `claude` if its template is truthy. -/
def availableExecutors (codexCommandTemplate claudeCommandTemplate : Option (List Char)) :
    List ExecutorKey :=
  (if strTruthy codexCommandTemplate then [ExecutorKey.codex] else []) ++
  (if strTruthy claudeCommandTemplate then [ExecutorKey.claude] else [])

/-- White-space characters recognised by JavaScript string `trim`
(the ones that can occur in chat and terminal output). -/
def isJsWhitespace (c : Char) : Bool :=
  c = ' ' || c = '\t' || c = '\n' || c = '\r' ||
  c = Char.ofNat 11 || c = Char.ofNat 12 || c = Char.ofNat 0xa0 || c = Char.ofNat 0xfeff

/-- JavaScript string `trim`: drop white-space from both ends. -/
def jsTrim (s : List Char) : List Char :=
  ((s.dropWhile isJsWhitespace).reverse.dropWhile isJsWhitespace).reverse

/-- Does the haystack start with the needle?  (Helper for `includes`.) -/
def listStartsWith : List Char → List Char → Bool
  | _, [] => true
  | [], _ :: _ => false
  | a :: hs, b :: ns => decide (a = b) && listStartsWith hs ns

/-- JavaScript `String.prototype.includes`: the needle occurs contiguously
somewhere in the haystack. -/
def listIncludes (haystack needle : List Char) : Bool :=
  if listStartsWith haystack needle then true
  else
    match haystack with
    | [] => false
    | _ :: rest => listIncludes rest needle

/-- `selectExecutor` from executor.ts lines 64-129.  The classification
call to the Chat Client is a parameter: `Except.ok` is the returned text,
`Except.error` a thrown provider error.  The second component counts how
many classification calls were issued.  `Except.error` on the left of the
result is a thrown `ConfigurationError`. -/
def selectExecutor (mode : ExecutorMode)
    (codexCommandTemplate claudeCommandTemplate : Option (List Char))
    (classify : Except Unit (List Char)) :
    Except (List Char) (ExecutorKey × List Char) × Nat :=
  if (availableExecutors codexCommandTemplate claudeCommandTemplate).length = 0 then
    (Except.error "実行テンプレートがありません。".toList, 0)
  else if mode = ExecutorMode.codex then
    if ExecutorKey.codex ∈ availableExecutors codexCommandTemplate claudeCommandTemplate then
      (Except.ok (ExecutorKey.codex, "設定により codex を固定利用".toList), 0)
    else (Except.error "EXECUTOR_MODE=codex ですが未設定です。".toList, 0)
  else if mode = ExecutorMode.claude then
    if ExecutorKey.claude ∈ availableExecutors codexCommandTemplate claudeCommandTemplate then
      (Except.ok (ExecutorKey.claude, "設定により claude を固定利用".toList), 0)
    else (Except.error "EXECUTOR_MODE=claude ですが未設定です。".toList, 0)
  else if (availableExecutors codexCommandTemplate claudeCommandTemplate).length = 1 then
    match (availableExecutors codexCommandTemplate claudeCommandTemplate).head? with
    | some only =>
      (Except.ok (only,
        "auto指定だが利用可能実行器が ".toList ++ executorName only ++ " のみ".toList), 0)
    | none => (Except.error "利用可能実行器の解決に失敗しました。".toList, 0)
  else
    match classify with
    | Except.ok response =>
      if listIncludes (jsTrim (response.map Char.toLower)) "claude".toList then
        (Except.ok (ExecutorKey.claude, "auto選択: Ollamaがclaudeを推奨".toList), 1)
      else
        (Except.ok (ExecutorKey.codex, "auto選択: Ollamaがcodexを推奨".toList), 1)
    | Except.error _ =>
      (Except.ok (ExecutorKey.codex, "auto選択に失敗したためcodexへフォールバック".toList), 1)

/-- C3: in executor mode auto with both command templates configured,
`selectExecutor` issues exactly one classification call and never fails:
it returns claude when the lower-cased (trimmed) response contains
`"claude"`, codex for any other response, and codex when the
classification call itself throws. -/
theorem selectExecutor_auto_both (codexT claudeT : Option (List Char))
    (hc : strTruthy codexT = true) (hl : strTruthy claudeT = true)
    (classify : Except Unit (List Char)) :
    selectExecutor ExecutorMode.auto codexT claudeT classify =
      (match classify with
       | Except.ok response =>
         if listIncludes (jsTrim (response.map Char.toLower)) "claude".toList then
           (Except.ok (ExecutorKey.claude, "auto選択: Ollamaがclaudeを推奨".toList), 1)
         else
           (Except.ok (ExecutorKey.codex, "auto選択: Ollamaがcodexを推奨".toList), 1)
       | Except.error _ =>
         (Except.ok (ExecutorKey.codex, "auto選択に失敗したためcodexへフォールバック".toList), 1)) := by
  have hav : availableExecutors codexT claudeT = [ExecutorKey.codex, ExecutorKey.claude] := by
    unfold availableExecutors
    rw [hc, hl]
    rfl
  unfold selectExecutor
  rw [hav]
  simp

/-- Witness for C3 at concrete templates and the classification response
`"claude"`. -/
theorem selectExecutor_auto_both_witness :
    (strTruthy (some "codex exec {PROMPT_FILE}".toList) = true ∧
     strTruthy (some "claude -p {PROMPT_FILE}".toList) = true) ∧
    selectExecutor ExecutorMode.auto (some "codex exec {PROMPT_FILE}".toList)
        (some "claude -p {PROMPT_FILE}".toList) (Except.ok "claude".toList) =
      (match (Except.ok "claude".toList : Except Unit (List Char)) with
       | Except.ok response =>
         if listIncludes (jsTrim (response.map Char.toLower)) "claude".toList then
           (Except.ok (ExecutorKey.claude, "auto選択: Ollamaがclaudeを推奨".toList), 1)
         else
           (Except.ok (ExecutorKey.codex, "auto選択: Ollamaがcodexを推奨".toList), 1)
       | Except.error _ =>
         (Except.ok (ExecutorKey.codex, "auto選択に失敗したためcodexへフォールバック".toList), 1)) :=
  ⟨⟨by decide, by decide⟩,
   selectExecutor_auto_both _ _ (by decide) (by decide) _⟩

/-! ## Project probe cache (llm.ts lines 382-426) — C8 -/

/-- `Map.prototype.get` on the session probe cache
(subject name → summary). -/
def lookupMap (m : List (List Char × List Char)) (k : List Char) : Option (List Char) :=
  match m with
  | [] => none
  | (k1, v) :: rest => if k1 = k then some v else lookupMap rest k

/-- `Map.prototype.set` on the session probe cache: overwrite an existing
key, otherwise insert. -/
def setMap (m : List (List Char × List Char)) (k v : List Char) :
    List (List Char × List Char) :=
  match m with
  | [] => [(k, v)]
  | (k1, v1) :: rest => if k1 = k then (k, v) :: rest else (k1, v1) :: setMap rest k v

/-- The main loop of `resolveProjectContext` (llm.ts lines 390-416) over
the extracted subject names.  `probe` stands for one full Process Runner
execution for a subject (`runExecutorForProjectProbe`, returning the run's
log text) and `summarize` for the one summarization call per subject
(`summarizeProjectProbe`, which itself degrades to a placeholder summary
on failure).  Returns the updated cache, the resolved subject names in
order, and the number of Process Runner executions performed. -/
def resolveProjectsLoop (probe : List Char → List Char)
    (summarize : List Char → List Char → List Char) :
    List (List Char × List Char) → List (List Char) →
      List (List Char × List Char) × List (List Char) × Nat
  | cache, [] => (cache, [], 0)
  | cache, name :: rest =>
    if (lookupMap cache name).isSome then
      ((resolveProjectsLoop probe summarize cache rest).1,
       name :: (resolveProjectsLoop probe summarize cache rest).2.1,
       (resolveProjectsLoop probe summarize cache rest).2.2)
    else
      ((resolveProjectsLoop probe summarize
          (setMap cache name (summarize name (probe name))) rest).1,
       name :: (resolveProjectsLoop probe summarize
          (setMap cache name (summarize name (probe name))) rest).2.1,
       (resolveProjectsLoop probe summarize
          (setMap cache name (summarize name (probe name))) rest).2.2 + 1)

/-- The combined context block built at the end of `resolveProjectContext`
(llm.ts lines 418-420): one section per resolved subject, read back from
the cache. -/
def probeContextText (cache : List (List Char × List Char))
    (resolved : List (List Char)) : List Char :=
  joinWith "\n\n".toList (resolved.map fun name =>
    "【".toList ++ name ++ " の理解メモ】\n".toList ++
      ((lookupMap cache name).getD "情報なし".toList))

theorem lookupMap_setMap_self (m : List (List Char × List Char)) (k v : List Char) :
    lookupMap (setMap m k v) k = some v := by
  induction m with
  | nil => simp [setMap, lookupMap]
  | cons p rest ih =>
    obtain ⟨k1, v1⟩ := p
    by_cases h : k1 = k
    · simp [setMap, lookupMap, h]
    · simp only [setMap, lookupMap, if_neg h]
      exact ih

theorem lookupMap_setMap_ne (m : List (List Char × List Char)) (k v k2 : List Char)
    (h : k ≠ k2) : lookupMap (setMap m k v) k2 = lookupMap m k2 := by
  induction m with
  | nil => simp [setMap, lookupMap, h]
  | cons p rest ih =>
    obtain ⟨k1, v1⟩ := p
    by_cases h1 : k1 = k
    · subst h1
      simp [setMap, lookupMap, h]
    · simp only [setMap, if_neg h1, lookupMap]
      by_cases h2 : k1 = k2
      · simp [h2]
      · simp [h2, ih]

/-- Cache entries are never overwritten by later resolutions: an existing
summary survives any further run of the loop unchanged. -/
theorem resolveProjectsLoop_preserves (probe : List Char → List Char)
    (summarize : List Char → List Char → List Char) (names : List (List Char)) :
    ∀ cache name s, lookupMap cache name = some s →
      lookupMap (resolveProjectsLoop probe summarize cache names).1 name = some s := by
  induction names with
  | nil =>
    intro cache name s h
    simpa [resolveProjectsLoop] using h
  | cons name1 rest ih =>
    intro cache name s h
    by_cases h1 : (lookupMap cache name1).isSome
    · simp only [resolveProjectsLoop, if_pos h1]
      exact ih cache name s h
    · simp only [resolveProjectsLoop, if_neg h1]
      have hne : name1 ≠ name := by
        intro heq
        rw [heq, h] at h1
        exact h1 rfl
      exact ih _ name s
        (by rw [lookupMap_setMap_ne _ _ _ _ hne]; exact h)

/-- C8: for a subject not yet cached, the first resolution triggers
exactly one Process Runner execution and stores its summary; resolving the
same subject again triggers no execution, leaves the cache unchanged (the
entry is write-once), and the returned context block is the cached summary
verbatim. -/
theorem probeCache_single_probe (probe : List Char → List Char)
    (summarize : List Char → List Char → List Char)
    (cache : List (List Char × List Char)) (name : List Char)
    (h : lookupMap cache name = none) :
    (resolveProjectsLoop probe summarize cache [name]).2.2 = 1 ∧
    lookupMap (resolveProjectsLoop probe summarize cache [name]).1 name
      = some (summarize name (probe name)) ∧
    (resolveProjectsLoop probe summarize
        (resolveProjectsLoop probe summarize cache [name]).1 [name]).2.2 = 0 ∧
    (resolveProjectsLoop probe summarize
        (resolveProjectsLoop probe summarize cache [name]).1 [name]).1
      = (resolveProjectsLoop probe summarize cache [name]).1 ∧
    probeContextText
        (resolveProjectsLoop probe summarize
          (resolveProjectsLoop probe summarize cache [name]).1 [name]).1
        (resolveProjectsLoop probe summarize
          (resolveProjectsLoop probe summarize cache [name]).1 [name]).2.1
      = "【".toList ++ name ++ " の理解メモ】\n".toList ++ summarize name (probe name) := by
  have hnone : (lookupMap cache name).isSome = false := by rw [h]; rfl
  have hfirst : resolveProjectsLoop probe summarize cache [name]
      = (setMap cache name (summarize name (probe name)), [name], 1) := by
    simp [resolveProjectsLoop, hnone]
  have hcached : lookupMap (setMap cache name (summarize name (probe name))) name
      = some (summarize name (probe name)) := lookupMap_setMap_self cache name _
  have hsecond : resolveProjectsLoop probe summarize
      (setMap cache name (summarize name (probe name))) [name]
      = (setMap cache name (summarize name (probe name)), [name], 0) := by
    simp [resolveProjectsLoop, hcached]
  rw [hfirst]
  refine ⟨rfl, hcached, ?_, ?_, ?_⟩
  · rw [hsecond]
  · rw [hsecond]
  · rw [hsecond]
    simp only [probeContextText, List.map_cons, List.map_nil, hcached, Option.getD_some]
    rfl

/-- Witness for C8 at an empty cache and the subject name `"proj"`. -/
theorem probeCache_single_probe_witness :
    lookupMap [] "proj".toList = none ∧
    ((resolveProjectsLoop (fun _ => "log".toList) (fun _ _ => "summary".toList)
        [] ["proj".toList]).2.2 = 1 ∧
     lookupMap (resolveProjectsLoop (fun _ => "log".toList) (fun _ _ => "summary".toList)
        [] ["proj".toList]).1 "proj".toList
       = some ((fun (_ : List Char) (_ : List Char) => "summary".toList)
           "proj".toList ((fun (_ : List Char) => "log".toList) "proj".toList)) ∧
     (resolveProjectsLoop (fun _ => "log".toList) (fun _ _ => "summary".toList)
        (resolveProjectsLoop (fun _ => "log".toList) (fun _ _ => "summary".toList)
          [] ["proj".toList]).1 ["proj".toList]).2.2 = 0 ∧
     (resolveProjectsLoop (fun _ => "log".toList) (fun _ _ => "summary".toList)
        (resolveProjectsLoop (fun _ => "log".toList) (fun _ _ => "summary".toList)
          [] ["proj".toList]).1 ["proj".toList]).1
       = (resolveProjectsLoop (fun _ => "log".toList) (fun _ _ => "summary".toList)
          [] ["proj".toList]).1 ∧
     probeContextText
        (resolveProjectsLoop (fun _ => "log".toList) (fun _ _ => "summary".toList)
          (resolveProjectsLoop (fun _ => "log".toList) (fun _ _ => "summary".toList)
            [] ["proj".toList]).1 ["proj".toList]).1
        (resolveProjectsLoop (fun _ => "log".toList) (fun _ _ => "summary".toList)
          (resolveProjectsLoop (fun _ => "log".toList) (fun _ _ => "summary".toList)
            [] ["proj".toList]).1 ["proj".toList]).2.1
       = "【".toList ++ "proj".toList ++ " の理解メモ】\n".toList ++
           (fun (_ : List Char) (_ : List Char) => "summary".toList)
             "proj".toList ((fun (_ : List Char) => "log".toList) "proj".toList)) :=
  ⟨by decide,
   probeCache_single_probe (fun _ => "log".toList) (fun _ _ => "summary".toList)
     [] "proj".toList (by decide)⟩

/-! ## Process Runner exit notification (pty runner lines 64-102) — C1 -/

/-- Terminal events of one run that reach `notifyExit`: the
pseudo-terminal's `onExit` event carrying the real exit code, or the catch
path entered when `pty.spawn` threw (spawn failure). -/
inductive RunEvent
  | ptyExit (exitCode : Int)
  | spawnError
deriving DecidableEq

/-- The exit-code argument `notifyExit` is invoked with for each event:
the real exit code on a normal process exit, `null` (`none`) when the
pseudo-terminal could not be spawned. -/
def exitCodeOf : RunEvent → Option Int
  | RunEvent.ptyExit c => some c
  | RunEvent.spawnError => none

/-- One call of `notifyExit(code)`: state is the `exitNotified` flag plus
the list of `onExit` callback invocations so far.  If the flag is set the
call returns immediately; otherwise it sets the flag and invokes the
callback with the event's code. -/
def notifyExitStep (st : Bool × List (Option Int)) (ev : RunEvent) :
    Bool × List (Option Int) :=
  if st.1 then st else (true, st.2 ++ [exitCodeOf ev])

/-- All `onExit` invocations produced by a sequence of exit events flowing
through `notifyExit`, starting from `exitNotified = false`. -/
def notifyExitRun (events : List RunEvent) : List (Option Int) :=
  (events.foldl notifyExitStep (false, [])).2

theorem foldl_notifyExitStep_true (events : List RunEvent) (acc : List (Option Int)) :
    events.foldl notifyExitStep (true, acc) = (true, acc) := by
  induction events with
  | nil => rfl
  | cons e rest ih => simpa [notifyExitStep] using ih

/-- C1: the exit callback is invoked exactly once per run — with the real
exit code on a normal exit, with `null` when the spawn failed — and never
twice, even if both the exit path and the error path fire: only the first
event of the run produces an invocation. -/
theorem notifyExit_once (events : List RunEvent) :
    notifyExitRun events = (events.map exitCodeOf).take 1 := by
  cases events with
  | nil => rfl
  | cons e rest =>
    unfold notifyExitRun
    rw [List.foldl_cons]
    have h1 : notifyExitStep (false, []) e = (true, [exitCodeOf e]) := by
      simp [notifyExitStep]
    rw [h1, foldl_notifyExitStep_true]
    simp

/-! ## Data-event handling in the Process Runner (pty runner lines 32-34,
86-92) — C9 -/

/-- JavaScript `.replace(/\r\n/g, "\n")`: left-to-right, non-overlapping
replacement of CRLF pairs. -/
def jsReplaceCRLF : List Char → List Char
  | [] => []
  | '\r' :: '\n' :: rest => '\n' :: jsReplaceCRLF rest
  | c :: rest => c :: jsReplaceCRLF rest

/-- JavaScript `.replace(/\r/g, "\n")`. -/
def jsReplaceCR (s : List Char) : List Char :=
  s.map fun c => if c = '\r' then '\n' else c

/-- `sanitizeForDiscord` from the pty runner lines 32-34.  Node's
`stripVTControlCharacters` is standard-library code, so it is passed as a
parameter; afterwards CRLF pairs and lone CRs are normalised to LF. -/
def sanitizeForDiscord (stripVT : List Char → List Char) (text : List Char) : List Char :=
  jsReplaceCR (jsReplaceCRLF (stripVT text))

/-- Observable effect of one pseudo-terminal data event: the texts
appended to the log file and the texts handed to the streaming callback. -/
structure DataEventEffect where
  logAppends : List (List Char)
  callbackChunks : List (List Char)
deriving DecidableEq

/-- The `onData` handler of the pty runner (lines 86-92): append the raw
data verbatim to the log, then hand the sanitized text to the streaming
callback when it is non-empty. -/
def onDataHandler (stripVT : List Char → List Char) (data : List Char) : DataEventEffect :=
  { logAppends := [data]
    callbackChunks :=
      if 0 < (sanitizeForDiscord stripVT data).length then
        [sanitizeForDiscord stripVT data]
      else [] }

theorem cr_not_mem_jsReplaceCR (s : List Char) : '\r' ∉ jsReplaceCR s := by
  unfold jsReplaceCR
  intro h
  obtain ⟨a, _, hfa⟩ := List.mem_map.mp h
  by_cases hcr : a = '\r'
  · rw [if_pos hcr] at hfa
    exact absurd hfa (by decide)
  · rw [if_neg hcr] at hfa
    exact hcr hfa

/-- C9: every data event is appended verbatim to the log file, and
everything that reaches the user-facing streaming callback is exactly the
sanitized (control-stripped, CR-normalised) text of that event — in
particular it contains no carriage returns. -/
theorem onData_log_and_callback (stripVT : List Char → List Char) (data : List Char) :
    (onDataHandler stripVT data).logAppends = [data] ∧
    (∀ c ∈ (onDataHandler stripVT data).callbackChunks,
       c = sanitizeForDiscord stripVT data) ∧
    (∀ c ∈ (onDataHandler stripVT data).callbackChunks, '\r' ∉ c) := by
  refine ⟨rfl, ?_, ?_⟩
  · intro c hc
    unfold onDataHandler at hc
    by_cases h : 0 < (sanitizeForDiscord stripVT data).length
    · rw [if_pos h] at hc
      exact List.mem_singleton.mp hc
    · rw [if_neg h] at hc
      exact absurd hc (List.not_mem_nil c)
  · intro c hc
    unfold onDataHandler at hc
    by_cases h : 0 < (sanitizeForDiscord stripVT data).length
    · rw [if_pos h] at hc
      rw [List.mem_singleton.mp hc]
      exact cr_not_mem_jsReplaceCR _
    · rw [if_neg h] at hc
      exact absurd hc (List.not_mem_nil c)

/-! ## Streaming flush policy (discord-bot.ts lines 324-386) — C2 -/

/-- Mutable state of the per-run flush policy: the accumulation buffer,
whether a delayed flush is scheduled, and the outputs handed to the
emission path (`sendLongCodeBlock`), in order.  The embedding is
single-threaded with each handler run to completion, so the `flushing`
re-entrancy flag of the source is never observed set and carries no
state here. -/
structure FlushState where
  streamBuffer : List Char
  flushTimer : Bool
  emitted : List (List Char)
deriving DecidableEq

/-- `flushStream(force)` from discord-bot.ts lines 328-342: below the
1200-character threshold a non-forced call is a no-op; otherwise the
buffer is trimmed, the buffer is cleared, and the trimmed text — when
non-empty — is handed to the emission path. -/
def flushStream (s : FlushState) (force : Bool) : FlushState :=
  if !force && s.streamBuffer.length < 1200 then s
  else if jsTrim s.streamBuffer = [] then { s with streamBuffer := [] }
  else { s with streamBuffer := [], emitted := s.emitted ++ [jsTrim s.streamBuffer] }

/-- The `onLog` callback (lines 360-371): append the chunk; at or above
1200 characters cancel any pending delayed flush and flush immediately;
otherwise schedule a delayed flush if none is pending. -/
def onLogChunk (s : FlushState) (chunk : List Char) : FlushState :=
  if 1200 ≤ (s.streamBuffer ++ chunk).length then
    flushStream { s with streamBuffer := s.streamBuffer ++ chunk, flushTimer := false } true
  else if s.flushTimer then { s with streamBuffer := s.streamBuffer ++ chunk }
  else { s with streamBuffer := s.streamBuffer ++ chunk, flushTimer := true }

/-- The delayed-flush timer firing (lines 344-350): clear the timer slot,
then force a flush. -/
def timerFire (s : FlushState) : FlushState :=
  if s.flushTimer then flushStream { s with flushTimer := false } true else s

/-- The `onExit` flush (lines 372-377): cancel any pending delayed flush
and force a final flush regardless of size. -/
def onExitFlush (s : FlushState) : FlushState :=
  flushStream { s with flushTimer := false } true

/-- The events a run delivers to the flush policy. -/
inductive FlushEvent
  | chunk (c : List Char)
  | timer
  | exit

/-- Dispatch one event to its handler. -/
def flushStep (s : FlushState) : FlushEvent → FlushState
  | FlushEvent.chunk c => onLogChunk s c
  | FlushEvent.timer => timerFire s
  | FlushEvent.exit => onExitFlush s

/-- The state at the start of a run. -/
def initFlushState : FlushState :=
  { streamBuffer := [], flushTimer := false, emitted := [] }

/-- Run the flush policy over an event sequence. -/
def runFlush (events : List FlushEvent) : FlushState :=
  events.foldl flushStep initFlushState

/-- The chunks delivered by the Process Runner in an event sequence. -/
def chunksOf (events : List FlushEvent) : List (List Char) :=
  events.filterMap fun e =>
    match e with
    | FlushEvent.chunk c => some c
    | FlushEvent.timer => none
    | FlushEvent.exit => none

/-- Character accounting of the flush policy: the delivered stream splits
into consecutive segments, one per flush performed, followed by the
still-unflushed buffer; each emission is its segment trimmed of leading
and trailing whitespace, and all-whitespace segments emit nothing. -/
def FlushInv (delivered : List (List Char)) (s : FlushState) : Prop :=
  ∃ segs : List (List Char),
    delivered.flatten = segs.flatten ++ s.streamBuffer ∧
    s.emitted = (segs.map jsTrim).filter (fun t => t ≠ [])

theorem flushStream_true_buffer (s : FlushState) :
    (flushStream s true).streamBuffer = [] := by
  unfold flushStream
  simp only [Bool.not_true, Bool.false_and, Bool.false_eq_true, if_false]
  by_cases h : jsTrim s.streamBuffer = [] <;> simp [h]

theorem flushStream_force_inv (delivered : List (List Char)) (s : FlushState)
    (h : FlushInv delivered s) : FlushInv delivered (flushStream s true) := by
  obtain ⟨segs, h1, h2⟩ := h
  refine ⟨segs ++ [s.streamBuffer], ?_, ?_⟩
  · rw [flushStream_true_buffer, List.flatten_append, List.append_nil]
    simpa using h1
  · unfold flushStream
    simp only [Bool.not_true, Bool.false_and, Bool.false_eq_true, if_false]
    by_cases h : jsTrim s.streamBuffer = []
    · simp [h, h2, List.filter_append]
    · simp [h, h2, List.filter_append]

/-- Handlers preserve the character accounting, extending the delivered
stream by the event's chunk (if any). -/
theorem flushStep_inv (delivered : List (List Char)) (s : FlushState) (e : FlushEvent)
    (h : FlushInv delivered s) :
    FlushInv (delivered ++ chunksOf [e]) (flushStep s e) := by
  obtain ⟨segs, h1, h2⟩ := h
  cases e with
  | chunk c =>
    have hbase : FlushInv (delivered ++ [c])
        { s with streamBuffer := s.streamBuffer ++ c } := by
      refine ⟨segs, ?_, h2⟩
      simp [h1, List.flatten_append]
    simp only [flushStep, onLogChunk, chunksOf, List.filterMap]
    by_cases hlen : 1200 ≤ (s.streamBuffer ++ c).length
    · rw [if_pos hlen]
      have := flushStream_force_inv (delivered ++ [c])
        { s with streamBuffer := s.streamBuffer ++ c, flushTimer := false }
        (by obtain ⟨sg, hh1, hh2⟩ := hbase; exact ⟨sg, hh1, hh2⟩)
      simpa [chunksOf] using this
    · rw [if_neg hlen]
      by_cases ht : s.flushTimer
      · rw [if_pos ht]
        simpa [chunksOf] using hbase
      · rw [if_neg ht]
        obtain ⟨sg, hh1, hh2⟩ := hbase
        exact ⟨sg, by simpa [chunksOf] using hh1, hh2⟩
  | timer =>
    simp only [flushStep, timerFire, chunksOf, List.filterMap, List.append_nil]
    by_cases ht : s.flushTimer
    · rw [if_pos ht]
      exact flushStream_force_inv delivered _ ⟨segs, h1, h2⟩
    · rw [if_neg ht]
      exact ⟨segs, h1, h2⟩
  | exit =>
    simp only [flushStep, onExitFlush, chunksOf, List.filterMap, List.append_nil]
    exact flushStream_force_inv delivered _ ⟨segs, h1, h2⟩

theorem chunksOf_cons (e : FlushEvent) (rest : List FlushEvent) :
    chunksOf (e :: rest) = chunksOf [e] ++ chunksOf rest := by
  cases e <;> simp [chunksOf]

theorem foldl_flushStep_inv (events : List FlushEvent) :
    ∀ delivered s, FlushInv delivered s →
      FlushInv (delivered ++ chunksOf events) (events.foldl flushStep s) := by
  induction events with
  | nil =>
    intro d s h
    simpa [chunksOf] using h
  | cons e rest ih =>
    intro d s h
    rw [List.foldl_cons, chunksOf_cons, ← List.append_assoc]
    exact ih (d ++ chunksOf [e]) _ (flushStep_inv d s e h)

/-- C2 (amended): the delivered stream of chunks splits into consecutive
segments, one per flush, with the unflushed remainder in the buffer; each
emitted flush is its segment with leading and trailing whitespace trimmed
away by `streamBuffer.trim()` (all-whitespace segments emit nothing), so
every non-trimmed character reaches some flush in original order; and the
forced final flush on run exit always leaves an empty buffer. -/
theorem flush_accounting (events : List FlushEvent) :
    FlushInv (chunksOf events) (runFlush events) ∧
    (runFlush (events ++ [FlushEvent.exit])).streamBuffer = [] := by
  constructor
  · have h := foldl_flushStep_inv events [] initFlushState
      ⟨[], by simp [initFlushState], rfl⟩
    simpa [runFlush] using h
  · rw [runFlush, List.foldl_append]
    simp only [List.foldl_cons, List.foldl_nil, flushStep, onExitFlush]
    exact flushStream_true_buffer _

/-- C2 counterexample: the chunk `" a"` followed by run exit emits only
`"a"` — the leading space is removed by `streamBuffer.trim()` in
`flushStream` and is contained in no emitted flush, so not every character
of every chunk is included in some flush. -/
theorem flush_drops_whitespace_cex :
    (runFlush [FlushEvent.chunk " a".toList, FlushEvent.exit]).emitted = ["a".toList] ∧
    ∀ f ∈ (runFlush [FlushEvent.chunk " a".toList, FlushEvent.exit]).emitted, ' ' ∉ f := by
  decide

end DraftCraft
